import Mathlib

/-!
Verification development for the pgcopydb core slice.

This file gives a shallow embedding, in Lean 4, of the parts of the
repository that the frozen claims talk about:

* `src/bin/pgcopydb/dump_restore.c` (shipped as `src/unnamed/part_000`):
  the schema dump/restore driver — `copydb_dump_source_schema`,
  `copydb_target_prepare_schema`, `copydb_target_finalize_schema`,
  `copydb_target_drop_tables`, `copydb_target_prepare_namespaces`,
  `copydb_write_restore_list`, `copydb_objectid_has_been_processed_already`.
* `src/bin/pgcopydb/extensions.c`: `copydb_start_extension_data_process`
  and `copydb_copy_extensions`.
* `src/bin/pgcopydb/ld_replay.c`: `stream_apply_replay` and
  `stream_replay_line` (the live-replay applier loop).

External effects (the filesystem, libpq calls, pg_dump / pg_restore
subprocesses, fork) are modelled by explicit oracle records (`World`,
`ReplayWorld`) whose fields give each external call's outcome, and each
embedded function returns, besides its boolean result, the ordered trace
of the externally visible actions it performed (`Event` / `SentinelEv`).
Functions of the repository that are referenced by the embedded code but
whose definitions are not part of the provided sources (the filtering
predicate, and the `ld_apply.c` helpers of the stream applier) are
modelled from the specification and marked as such in their doc comments.
-/

namespace Pgcopydb

/-- An externally visible action performed by the dump/restore driver:
running a pg_dump section, running pg_restore, executing a SQL statement
on the target database, or writing a file (path and contents). -/
inductive Event
  | runDump (sectionName fileName : String)
  | runRestore (dumpFile listFile : String)
  | execTarget (sql : String)
  | fileWrite (path contents : String)
deriving DecidableEq, Repr

/-- One entry of the archive table-of-contents, as returned by
`pg_restore --list` (struct `ArchiveContentItem`). -/
structure ArchiveContentItem where
  dumpId : Nat
  catalogOid : Nat
  objectOid : Nat
  desc : String
  restoreListName : String
deriving DecidableEq, Repr

/-- A source table (the fields of `SourceTable` used by this slice). -/
structure SourceTable where
  nspname : String
  relname : String
deriving DecidableEq, Repr

/-- One configuration table of an extension (struct `SourceExtensionConfig`). -/
structure SourceExtensionConfig where
  nspname : String
  relname : String
  condition : String
deriving DecidableEq, Repr

/-- A source extension with its configuration tables (struct `SourceExtension`). -/
structure SourceExtension where
  extname : String
  config : List SourceExtensionConfig
deriving DecidableEq, Repr

/-- The pg_dump section argument (enum `PostgresDumpSection`). -/
inductive DumpSection
  | schema
  | preData
  | postData
  | all
deriving DecidableEq, Repr

/-- The fields of `CopyDataSpec` consulted by the embedded functions:
the dump/list/done file paths, the index work directory, the restore
options and filters, and the source catalog arrays. -/
structure CopyDataSpec where
  preFilename : String
  postFilename : String
  preListFilename : String
  postListFilename : String
  donePreDataDump : String
  donePostDataDump : String
  donePreDataRestore : String
  donePostDataRestore : String
  idxdir : String
  dropIfExists : Bool
  includeOnlySchemaList : List String
  sourceTableArray : List SourceTable
  skipExtensions : Bool
  extensionArray : List SourceExtension

/-- Oracle for the external world seen by the dump/restore driver and the
extension copier: which files exist, what `pg_restore --list` returns for
each archive, whether each external call succeeds, and the filtering
predicate.  `filteredOut` models `copydb_objectid_is_filtered_out`, whose
definition is not among the provided sources; it is the namespace-aware
filter the spec describes, taken here as an arbitrary oracle. -/
structure World where
  fs : List String
  filteredOut : Nat → String → Bool
  restoreListPre : Option (List ArchiveContentItem)
  restoreListPost : Option (List ArchiveContentItem)
  writeOk : String → Bool
  pgDumpPreOk : Bool
  pgDumpPostOk : Bool
  pgRestorePreOk : Bool
  pgRestorePostOk : Bool
  targetInitOk : Bool
  dropExecOk : Bool
  nsExecOk : Bool
  forkOk : Bool
  extInitOk : Bool
  extExecOk : Bool
  pgCopyOk : String → Bool

/-- Embeds `file_exists`: a file exists when its path is in the world's
file list. -/
def file_exists (w : World) (p : String) : Bool :=
  w.fs.contains p

/-- Embeds `copydb_objectid_has_been_processed_already`: true when the
done file `<idxdir>/<oid>.done` exists on disk. -/
def copydb_objectid_has_been_processed_already
    (specs : CopyDataSpec) (w : World) (oid : Nat) : Bool :=
  file_exists w (specs.idxdir ++ "/" ++ toString oid ++ ".done")

/-- The uncommented archive list line for one entry, following the format
string `"%d; %u %u %s %s\n"` used by `copydb_write_restore_list`. -/
def verbatimArchiveLine (item : ArchiveContentItem) : String :=
  toString item.dumpId ++ "; " ++ toString item.catalogOid ++ " " ++
    toString item.objectOid ++ " " ++ item.desc ++ " " ++
    item.restoreListName ++ "\n"

/-- The line emitted for one archive entry by `copydb_write_restore_list`:
the comment sentinel `";"` is prepended when the entry's object oid has a
done file already, or when the entry is filtered out; otherwise the line
is emitted verbatim. -/
def restoreListLine (specs : CopyDataSpec) (w : World)
    (item : ArchiveContentItem) : String :=
  (if copydb_objectid_has_been_processed_already specs w item.objectOid then ";"
   else if w.filteredOut item.objectOid item.restoreListName then ";"
   else "") ++ verbatimArchiveLine item

/-- Embeds `copydb_write_restore_list`: pick the dump/list file for the
section, obtain the archive contents from `pg_restore --list`, build the
edited list and write it out.  Returns the boolean result and the trace
of performed actions. -/
def copydb_write_restore_list (specs : CopyDataSpec) (w : World)
    (sec : DumpSection) : Bool × List Event :=
  match sec with
  | DumpSection.preData =>
    match w.restoreListPre with
    | none => (false, [])
    | some items =>
      if w.writeOk specs.preListFilename then
        (true, [Event.fileWrite specs.preListFilename
                  (String.join (items.map (restoreListLine specs w)))])
      else (false, [])
  | DumpSection.postData =>
    match w.restoreListPost with
    | none => (false, [])
    | some items =>
      if w.writeOk specs.postListFilename then
        (true, [Event.fileWrite specs.postListFilename
                  (String.join (items.map (restoreListLine specs w)))])
      else (false, [])
  | _ => (false, [])

/-- The quoted, schema-qualified name `"nsp"."rel"` of a table. -/
def quotedTableName (t : SourceTable) : String :=
  "\"" ++ t.nspname ++ "\".\"" ++ t.relname ++ "\""

/-- The per-table part of the DROP TABLE query, following the loop of
`copydb_target_drop_tables`: the format `"%s \"%s\".\"%s\""` with
separator `" "` for the first table and `","` afterwards. -/
def dropTablesBody : List SourceTable → Bool → String
  | [], _ => ""
  | t :: rest, isFirst =>
    (if isFirst then " " else ",") ++ " " ++ quotedTableName t ++
      dropTablesBody rest false

/-- The full SQL text composed by `copydb_target_drop_tables`:
`DROP TABLE IF EXISTS` then one quoted qualified name per table, then
`CASCADE` (appended with no separator, exactly as the C code does). -/
def dropTablesQuery (ts : List SourceTable) : String :=
  "DROP TABLE IF EXISTS" ++ dropTablesBody ts true ++ "CASCADE"

/-- Embeds `copydb_target_drop_tables`: when the source table array is
empty the function returns success without touching the target; otherwise
it connects to the target and executes the single DROP statement. -/
def copydb_target_drop_tables (specs : CopyDataSpec) (w : World) :
    Bool × List Event :=
  if specs.sourceTableArray = [] then (true, [])
  else if ¬ w.targetInitOk then (false, [])
  else if ¬ w.dropExecOk then
    (false, [Event.execTarget (dropTablesQuery specs.sourceTableArray)])
  else (true, [Event.execTarget (dropTablesQuery specs.sourceTableArray)])

/-- The SQL text composed by `copydb_target_prepare_namespaces`: one
`CREATE SCHEMA IF NOT EXISTS "nsp";` per schema of the inclusion list,
concatenated into a single query string. -/
def createSchemasQuery : List String → String
  | [] => ""
  | n :: rest =>
    "CREATE SCHEMA IF NOT EXISTS \"" ++ n ++ "\";" ++ createSchemasQuery rest

/-- Embeds `copydb_target_prepare_namespaces`: connect to the target and
execute the concatenated CREATE SCHEMA IF NOT EXISTS statements. -/
def copydb_target_prepare_namespaces (specs : CopyDataSpec) (w : World) :
    Bool × List Event :=
  if ¬ w.targetInitOk then (false, [])
  else if ¬ w.nsExecOk then
    (false, [Event.execTarget (createSchemasQuery specs.includeOnlySchemaList)])
  else (true, [Event.execTarget (createSchemasQuery specs.includeOnlySchemaList)])

/-- Embeds `copydb_target_prepare_schema`.  Note the faithful rendering of
the source's handling of a `copydb_write_restore_list` failure: the error
is logged and the function returns `true`. -/
def copydb_target_prepare_schema (specs : CopyDataSpec) (w : World) :
    Bool × List Event :=
  if ¬ file_exists w specs.preFilename then (false, [])
  else if file_exists w specs.donePreDataRestore then (true, [])
  else
    let rl := copydb_write_restore_list specs w DumpSection.preData
    if rl.1 = false then (true, rl.2)
    else
      let dt := if specs.dropIfExists then copydb_target_drop_tables specs w
                else (true, [])
      if dt.1 = false then (false, rl.2 ++ dt.2)
      else
        let ns := if specs.includeOnlySchemaList ≠ [] then
                    copydb_target_prepare_namespaces specs w
                  else (true, [])
        if ns.1 = false then (false, rl.2 ++ dt.2 ++ ns.2)
        else
          let evs := rl.2 ++ dt.2 ++ ns.2 ++
            [Event.runRestore specs.preFilename specs.preListFilename]
          if ¬ w.pgRestorePreOk then (false, evs)
          else if ¬ w.writeOk specs.donePreDataRestore then (false, evs)
          else (true, evs ++ [Event.fileWrite specs.donePreDataRestore ""])

/-- Embeds `copydb_target_finalize_schema` (post-data restore), with the
same faithful `return true` on a `copydb_write_restore_list` failure. -/
def copydb_target_finalize_schema (specs : CopyDataSpec) (w : World) :
    Bool × List Event :=
  if ¬ file_exists w specs.postFilename then (false, [])
  else if file_exists w specs.donePostDataRestore then (true, [])
  else
    let rl := copydb_write_restore_list specs w DumpSection.postData
    if rl.1 = false then (true, rl.2)
    else
      let evs := rl.2 ++
        [Event.runRestore specs.postFilename specs.postListFilename]
      if ¬ w.pgRestorePostOk then (false, evs)
      else if ¬ w.writeOk specs.donePostDataRestore then (false, evs)
      else (true, evs ++ [Event.fileWrite specs.donePostDataRestore ""])

/-- Embeds `copydb_dump_source_schema`: the pre-data and post-data dump
units.  Each unit skips `pg_dump` when its done file already exists, and
(re)writes the done file after the dump step. -/
def copydb_dump_source_schema (specs : CopyDataSpec) (w : World)
    (sec : DumpSection) : Bool × List Event :=
  let doPre := sec = DumpSection.schema ∨ sec = DumpSection.preData ∨
    sec = DumpSection.all
  let doPost := sec = DumpSection.schema ∨ sec = DumpSection.postData ∨
    sec = DumpSection.all
  let preRes : Bool × List Event :=
    if doPre then
      if file_exists w specs.donePreDataDump then
        if w.writeOk specs.donePreDataDump then
          (true, [Event.fileWrite specs.donePreDataDump ""])
        else (false, [])
      else if ¬ w.pgDumpPreOk then (false, [])
      else if w.writeOk specs.donePreDataDump then
        (true, [Event.runDump "pre-data" specs.preFilename,
                Event.fileWrite specs.donePreDataDump ""])
      else (false, [Event.runDump "pre-data" specs.preFilename])
    else (true, [])
  if preRes.1 = false then (false, preRes.2)
  else
    let postRes : Bool × List Event :=
      if doPost then
        if file_exists w specs.donePostDataDump then
          if w.writeOk specs.donePostDataDump then
            (true, [Event.fileWrite specs.donePostDataDump ""])
          else (false, [])
        else if ¬ w.pgDumpPostOk then (false, [])
        else if w.writeOk specs.donePostDataDump then
          (true, [Event.runDump "post-data" specs.postFilename,
                  Event.fileWrite specs.donePostDataDump ""])
        else (false, [Event.runDump "post-data" specs.postFilename])
      else (true, [])
    (postRes.1, preRes.2 ++ postRes.2)

/-- The quoted, schema-qualified name of an extension configuration
table, as built by `copydb_copy_extensions`. -/
def extConfigQName (c : SourceExtensionConfig) : String :=
  "\"" ++ c.nspname ++ "\".\"" ++ c.relname ++ "\""

/-- The inner loop of `copydb_copy_extensions` over one extension's
configuration tables: `pg_copy` each table, returning early on failure. -/
def copyExtConfigs (w : World) : List SourceExtensionConfig → Bool
  | [] => true
  | c :: rest =>
    if w.pgCopyOk (extConfigQName c) then copyExtConfigs w rest else false

/-- The outer loop of `copydb_copy_extensions` over the extension array:
the optional `create extension` statement only counts errors, while a
`pg_copy` failure returns immediately (`none`). -/
def copyExtLoop (w : World) (createExtensions : Bool) :
    List SourceExtension → Nat → Option Nat
  | [], errors => some errors
  | _ext :: rest, errors =>
    let errors' := if createExtensions ∧ ¬ w.extExecOk then errors + 1 else errors
    if copyExtConfigs w _ext.config then copyExtLoop w createExtensions rest errors'
    else none

/-- Embeds `copydb_copy_extensions`: connect to the target, then loop
over the extensions; the result is true when no error was counted. -/
def copydb_copy_extensions (specs : CopyDataSpec) (w : World)
    (createExtensions : Bool) : Bool :=
  if ¬ w.extInitOk then false
  else
    match copyExtLoop w createExtensions specs.extensionArray 0 with
    | none => false
    | some errors => errors = 0

/-- Result of `copydb_start_extension_data_process` as seen by the
caller: the boolean result, whether the parent waited for the child, and
the child's exit code when a child was forked (0 is `EXIT_CODE_QUIT`, 12
is `EXIT_CODE_INTERNAL_ERROR`). -/
structure ExtProcRes where
  ok : Bool
  waited : Bool
  childExit : Option Nat
deriving DecidableEq, Repr

/-- Embeds `copydb_start_extension_data_process`: skip when requested,
fail when `fork` fails, and otherwise return success immediately in the
parent without waiting, while the child runs `copydb_copy_extensions`
with `createExtensions = false` and exits with its own code. -/
def copydb_start_extension_data_process (specs : CopyDataSpec) (w : World) :
    ExtProcRes :=
  if specs.skipExtensions then ⟨true, false, none⟩
  else if ¬ w.forkOk then ⟨false, false, none⟩
  else ⟨true, false,
    some (if copydb_copy_extensions specs w false then 0 else 12)⟩

/-- The action of one logical-decoding line (enum `StreamAction`). -/
inductive StreamAction
  | begin
  | commit
  | insert
  | update
  | delete
  | truncate
  | message
  | switchwal
  | keepalive
  | endpos
deriving DecidableEq, Repr

/-- One line of the live-replay input stream as seen by
`stream_replay_line`: the parsed metadata (action and LSN — for BEGIN and
COMMIT lines the LSN is the transaction's commit LSN), the wall-clock
second at which the line is processed (the callback's `time(NULL)`), and
whether `parseSQLAction` succeeds on the line. -/
structure Msg where
  action : StreamAction
  lsn : Nat
  now : Nat
  parseOk : Bool
deriving DecidableEq, Repr

/-- The fields of `StreamApplyContext` used by the live-replay loop,
plus the ghost field `applied`: the list of commit LSNs of the
transactions committed on the target, in order. -/
structure StreamApplyContext where
  endpos : Nat
  previousLSN : Nat
  replay_lsn : Nat
  reachedEndPos : Bool
  transactionInProgress : Bool
  sentinelQueryInProgress : Bool
  sentinelSyncTime : Nat
  applied : List Nat
deriving DecidableEq, Repr

/-- Oracle for the live-replay applier's external world: the `endpos`
currently stored in the source's sentinel row (returned by every sentinel
round trip), and whether `pgsql_init` of the source connection
succeeds. -/
structure ReplayWorld where
  sentinelEndpos : Nat
  srcInitOk : Bool
deriving DecidableEq, Repr

/-- A sentinel-connection action of the applier: draining the result of a
previous asynchronous update, sending a new asynchronous update carrying
a replay LSN, or the final synchronous update before exit. -/
inductive SentinelEv
  | drain
  | send (lsn : Nat)
  | finalSync (lsn : Nat)
deriving DecidableEq, Repr

/-- Modelled from the spec: `stream_apply_sql` (ld_apply.c, whose
definition is not among the provided sources).  Section 4.10 of the spec:
a BEGIN whose commit-lsn is older than `previousLSN` is skipped as a
duplicate; a transaction whose commit-lsn is at most `endpos` is applied
in full, and the applier stops after committing the transaction whose
commit-lsn is the greatest commit-lsn at most `endpos` (so a BEGIN whose
commit-lsn exceeds a non-zero `endpos` is not entered and marks the end
position reached); COMMIT updates the replication origin and the
last-applied LSNs inside the committed transaction. -/
def stream_apply_sql (ctx : StreamApplyContext) (m : Msg) :
    StreamApplyContext :=
  match m.action with
  | StreamAction.begin =>
    if ctx.endpos ≠ 0 ∧ ctx.endpos < m.lsn then
      { ctx with reachedEndPos := true }
    else if m.lsn ≤ ctx.previousLSN then ctx
    else { ctx with transactionInProgress := true }
  | StreamAction.commit =>
    if ctx.transactionInProgress then
      { ctx with
          transactionInProgress := false,
          previousLSN := m.lsn,
          replay_lsn := m.lsn,
          applied := ctx.applied ++ [m.lsn],
          reachedEndPos :=
            if ctx.endpos ≠ 0 ∧ ctx.endpos ≤ m.lsn then true
            else ctx.reachedEndPos }
    else ctx
  | _ => ctx

/-- Result of `stream_replay_line` on one line: the updated context, the
sentinel actions performed, and the value stored in `*stop`. -/
structure LineRes where
  ctx : StreamApplyContext
  evs : List SentinelEv
  stop : Bool
deriving DecidableEq, Repr

/-- The progress-reporting step of `stream_replay_line` (its `switch` on
the line's action): only on COMMIT and KEEPALIVE lines, either drain a
still in-flight sentinel query, or, rate limited to one update per
second, send a new asynchronous sentinel update carrying the last
applied commit LSN.  The sentinel helpers
`stream_apply_fetch_sync_sentinel` and `stream_apply_send_sync_sentinel`
(ld_apply.c, not among the provided sources) are modelled from the spec:
the fetch clears the in-flight flag and refreshes `endpos` from the
returned sentinel row, the send sets the in-flight flag and records the
send time. -/
def sentinel_progress (w : ReplayWorld) (c1 : StreamApplyContext) (m : Msg) :
    StreamApplyContext × List SentinelEv :=
  match m.action with
  | StreamAction.commit | StreamAction.keepalive =>
    if c1.sentinelQueryInProgress then
      ({ c1 with sentinelQueryInProgress := false,
                 endpos := w.sentinelEndpos }, [SentinelEv.drain])
    else if 1 < m.now - c1.sentinelSyncTime then
      ({ c1 with sentinelQueryInProgress := true,
                 sentinelSyncTime := m.now },
       [SentinelEv.send c1.replay_lsn])
    else (c1, [])
  | _ => (c1, [])

/-- Embeds `stream_replay_line`: parse the line (`none` on parse
failure), apply it with `stream_apply_sql`, run the progress-reporting
step, and finally request a stop when the end position was reached or a
refreshed endpos is at most the LSN already replayed. -/
def stream_replay_line (w : ReplayWorld) (ctx : StreamApplyContext)
    (m : Msg) : Option LineRes :=
  if m.parseOk = false then none
  else
    let pr := sentinel_progress w (stream_apply_sql ctx m) m
    let c2 := pr.1
    let stop := c2.reachedEndPos ||
      (c2.endpos != 0 && decide (c2.endpos ≤ c2.previousLSN))
    some ⟨if stop then { c2 with reachedEndPos := true } else c2, pr.2, stop⟩

/-- Result of the `read_from_stream` loop: whether it succeeded, whether
it exited because the callback requested a stop, the final context, the
sentinel actions performed, and the unread remainder of the input. -/
structure ReadRes where
  ok : Bool
  stopped : Bool
  ctx : StreamApplyContext
  evs : List SentinelEv
  rest : List Msg
deriving DecidableEq, Repr

/-- Modelled from the spec: the `read_from_stream` loop (its definition
is not among the provided sources; per its use in `stream_apply_replay`
it feeds each input line to the `stream_replay_line` callback, stops when
the callback sets `*stop`, and fails when the callback fails). -/
def read_from_stream (w : ReplayWorld) :
    StreamApplyContext → List Msg → ReadRes
  | ctx, [] => ⟨true, false, ctx, [], []⟩
  | ctx, m :: ms =>
    match stream_replay_line w ctx m with
    | none => ⟨false, false, ctx, [], ms⟩
    | some lr =>
      if lr.stop then ⟨true, true, lr.ctx, lr.evs, ms⟩
      else
        let r := read_from_stream w lr.ctx ms
        ⟨r.ok, r.stopped, r.ctx, lr.evs ++ r.evs, r.rest⟩

/-- Result of `stream_apply_replay`: the boolean result, the final
context, the sentinel actions performed, and the unread input. -/
structure ReplayRes where
  ok : Bool
  ctx : StreamApplyContext
  evs : List SentinelEv
  rest : List Msg
deriving DecidableEq, Repr

/-- Embeds `stream_apply_replay`, starting after `setupReplicationOrigin`
has populated the context: when a non-zero `endpos` was already reached
by `previousLSN` the function returns success immediately; otherwise it
initializes the source connection, runs the read loop, drains a possibly
still in-flight sentinel query, and performs the final synchronous
sentinel update (modelled from the spec as always succeeding and
refreshing `endpos` from the sentinel row). -/
def stream_apply_replay (w : ReplayWorld) (ctx : StreamApplyContext)
    (msgs : List Msg) : ReplayRes :=
  if ctx.endpos ≠ 0 ∧ ctx.endpos ≤ ctx.previousLSN then ⟨true, ctx, [], msgs⟩
  else if ¬ w.srcInitOk then ⟨false, ctx, [], msgs⟩
  else
    let r := read_from_stream w ctx msgs
    if r.ok = false then ⟨false, r.ctx, r.evs, r.rest⟩
    else
      let pr : StreamApplyContext × List SentinelEv :=
        if r.ctx.sentinelQueryInProgress then
          ({ r.ctx with sentinelQueryInProgress := false,
                        endpos := w.sentinelEndpos }, [SentinelEv.drain])
        else (r.ctx, [])
      ⟨true, { pr.1 with endpos := w.sentinelEndpos },
       r.evs ++ pr.2 ++ [SentinelEv.finalSync pr.1.replay_lsn], r.rest⟩

/-- True on the actions that `stream_replay_line` treats as plain
statements of a transaction (no progress reporting). -/
def isDML : StreamAction → Bool
  | StreamAction.insert => true
  | StreamAction.update => true
  | StreamAction.delete => true
  | StreamAction.truncate => true
  | StreamAction.message => true
  | StreamAction.switchwal => true
  | _ => false

/-- One source transaction of the transformed stream: its commit LSN, the
DML lines between its BEGIN and COMMIT, and the processing times of the
BEGIN and COMMIT lines. -/
structure Txn where
  lsn : Nat
  body : List Msg
  beginTime : Nat
  commitTime : Nat
deriving DecidableEq, Repr

/-- The lines of one transaction: BEGIN, the body, COMMIT; BEGIN and
COMMIT both carry the transaction's commit LSN, as emitted by the
transformer. -/
def Txn.msgs (t : Txn) : List Msg :=
  ⟨StreamAction.begin, t.lsn, t.beginTime, true⟩ ::
    (t.body ++ [⟨StreamAction.commit, t.lsn, t.commitTime, true⟩])

/-- The transformed input stream of a list of transactions. -/
def txnStream (ts : List Txn) : List Msg :=
  (ts.map Txn.msgs).flatten

/-- True when the list is strictly increasing. -/
def sortedLT : List Nat → Bool
  | [] => true
  | x :: rest => rest.all (fun y => decide (x < y)) && sortedLT rest

/-- Alternation discipline of the sentinel actions: starting from the
given in-flight state, a send is legal only when nothing is in flight and
a drain only when something is, so at most one sentinel query is ever in
flight. -/
def sentinelAlt : Bool → List SentinelEv → Bool
  | _, [] => true
  | false, SentinelEv.send _ :: rest => sentinelAlt true rest
  | true, SentinelEv.drain :: rest => sentinelAlt false rest
  | f, SentinelEv.finalSync _ :: rest => sentinelAlt f rest
  | _, _ => false

/-- A concrete `CopyDataSpec` used to evaluate the embedded functions on
explicit inputs. -/
def exSpecs : CopyDataSpec where
  preFilename := "schema/pre.dump"
  postFilename := "schema/post.dump"
  preListFilename := "schema/pre.list"
  postListFilename := "schema/post.list"
  donePreDataDump := "run/pre-data-dump.done"
  donePostDataDump := "run/post-data-dump.done"
  donePreDataRestore := "run/pre-data-restore.done"
  donePostDataRestore := "run/post-data-restore.done"
  idxdir := "objects/indexes"
  dropIfExists := true
  includeOnlySchemaList := ["s1"]
  sourceTableArray := [⟨"public", "t1"⟩, ⟨"public", "t2"⟩]
  skipExtensions := false
  extensionArray := [⟨"postgis", [⟨"public", "spatial_ref_sys", ""⟩]⟩]

/-- A concrete archive entry (object oid 101). -/
def exItem : ArchiveContentItem :=
  ⟨1, 0, 101, "TABLE", "public t1 owner"⟩

/-- A concrete world in which both dump files exist, no done marker
exists, and every external call succeeds. -/
def exWorld : World where
  fs := ["schema/pre.dump", "schema/post.dump"]
  filteredOut := fun _ _ => false
  restoreListPre := some [exItem]
  restoreListPost := some [⟨7, 0, 202, "INDEX", "public t1_pkey owner"⟩]
  writeOk := fun _ => true
  pgDumpPreOk := true
  pgDumpPostOk := true
  pgRestorePreOk := true
  pgRestorePostOk := true
  targetInitOk := true
  dropExecOk := true
  nsExecOk := true
  forkOk := true
  extInitOk := true
  extExecOk := true
  pgCopyOk := fun _ => true

/-- A world in which writing either pg_restore list file fails. -/
def exWorldListWriteFails : World :=
  { exWorld with
      writeOk := fun p =>
        !(p == "schema/pre.list" || p == "schema/post.list") }

/-- A world in which `pg_restore --list` fails on the pre-data archive. -/
def exWorldRestoreListFails : World :=
  { exWorld with restoreListPre := none }

/-- A world in which copying every extension configuration table fails. -/
def exWorldExtCopyFails : World :=
  { exWorld with pgCopyOk := fun _ => false }

/-- A concrete applier context: replaying from LSN 5 towards endpos 25. -/
def exCtx : StreamApplyContext where
  endpos := 25
  previousLSN := 5
  replay_lsn := 5
  reachedEndPos := false
  transactionInProgress := false
  sentinelQueryInProgress := false
  sentinelSyncTime := 0
  applied := []

/-- A concrete applier context whose endpos 5 was already reached at
LSN 10. -/
def exCtxReached : StreamApplyContext :=
  { exCtx with endpos := 5, previousLSN := 10, replay_lsn := 10 }

/-- A concrete applier context with no endpos set. -/
def exCtxNoEndpos : StreamApplyContext :=
  { exCtx with endpos := 0 }

/-- A concrete replay world agreeing with `exCtx` on the endpos. -/
def exRWorld : ReplayWorld where
  sentinelEndpos := 25
  srcInitOk := true

/-- Three concrete transactions at commit LSNs 10, 20 and 30: with endpos
25 the applier must commit 10 and 20 and stop without reading the COMMIT
of 30. -/
def exTxns : List Txn :=
  [⟨10, [⟨StreamAction.insert, 10, 3, true⟩], 2, 3⟩,
   ⟨20, [], 4, 5⟩,
   ⟨30, [], 6, 7⟩]

/-- A one-line input whose line fails to parse. -/
def exBadMsgs : List Msg :=
  [⟨StreamAction.insert, 10, 0, false⟩]

/-- A world whose exclusion filters reject object oid 101. -/
def exWorldFilterOid101 : World :=
  { exWorld with filteredOut := fun oid _ => oid == 101 }

/-- A world in which the done file for object oid 101 exists in the
index work directory. -/
def exWorldOid101Done : World :=
  { exWorld with fs := "objects/indexes/101.done" :: exWorld.fs }

/-- The spec with an empty include-only-schema filter list. -/
def exSpecsNoSchemas : CopyDataSpec :=
  { exSpecs with includeOnlySchemaList := [] }

/-- The spec with an empty source table array. -/
def exSpecsNoTables : CopyDataSpec :=
  { exSpecs with sourceTableArray := [] }

/-- An applier context with a sentinel query still in flight. -/
def exCtxInFlight : StreamApplyContext :=
  { exCtx with sentinelQueryInProgress := true }

/-- A COMMIT line at LSN 10, processed at second 5. -/
def exCommitMsg : Msg :=
  ⟨StreamAction.commit, 10, 5, true⟩

/-! ### Helper lemmas about the composed SQL texts -/

theorem dropTablesBody_mem (ts : List SourceTable) :
    ∀ t ∈ ts, ∀ b : Bool, ∃ x y : String,
      dropTablesBody ts b = x ++ (quotedTableName t ++ y) := by
  induction ts with
  | nil => intro t ht; cases ht
  | cons hd tl ih =>
    intro t ht b
    rcases List.mem_cons.mp ht with h | h
    · subst h
      refine ⟨(if b then " " else ",") ++ " ", dropTablesBody tl false, ?_⟩
      simp [dropTablesBody, String.append_assoc]
    · obtain ⟨x, y, hxy⟩ := ih t h false
      refine ⟨(if b then " " else ",") ++ (" " ++ (quotedTableName hd ++ x)), y, ?_⟩
      simp [dropTablesBody, hxy, String.append_assoc]

theorem dropTablesQuery_mem (ts : List SourceTable) :
    ∀ t ∈ ts, ∃ x y : String,
      dropTablesQuery ts = x ++ (quotedTableName t ++ y) := by
  intro t ht
  obtain ⟨x, y, hxy⟩ := dropTablesBody_mem ts t ht true
  refine ⟨"DROP TABLE IF EXISTS" ++ x, y ++ "CASCADE", ?_⟩
  simp [dropTablesQuery, hxy, String.append_assoc]

theorem string_empty_append (s : String) : "" ++ s = s := rfl

theorem createSchemasQuery_mem (l : List String) :
    ∀ n ∈ l, ∃ x y : String,
      createSchemasQuery l =
        x ++ (("CREATE SCHEMA IF NOT EXISTS \"" ++ (n ++ "\";")) ++ y) := by
  induction l with
  | nil => intro n hn; cases hn
  | cons hd tl ih =>
    intro n hn
    rcases List.mem_cons.mp hn with h | h
    · subst h
      refine ⟨"", createSchemasQuery tl, ?_⟩
      simp [createSchemasQuery, string_empty_append, String.append_assoc]
    · obtain ⟨x, y, hxy⟩ := ih n h
      refine ⟨"CREATE SCHEMA IF NOT EXISTS \"" ++ (hd ++ ("\";" ++ x)), y, ?_⟩
      simp [createSchemasQuery, hxy, String.append_assoc]

theorem createSchemasQuery_ne_dropTablesQuery (l : List String)
    (ts : List SourceTable) (h : l ≠ []) :
    createSchemasQuery l ≠ dropTablesQuery ts := by
  cases l with
  | nil => exact absurd rfl h
  | cons n rest =>
    intro heq
    have h1 : (createSchemasQuery (n :: rest)).data.head? = some 'C' := by
      show (("CREATE SCHEMA IF NOT EXISTS \"" : String) ++
        (n ++ ("\";" ++ createSchemasQuery rest))).data.head? = some 'C'
      rw [String.data_append]
      have h2 : ("CREATE SCHEMA IF NOT EXISTS \"" : String).data =
          'C' :: ("REATE SCHEMA IF NOT EXISTS \"" : String).data := by decide
      rw [h2]
      rfl
    have h3 : (dropTablesQuery ts).data.head? = some 'D' := by
      show (("DROP TABLE IF EXISTS" : String) ++
        (dropTablesBody ts true ++ "CASCADE")).data.head? = some 'D'
      rw [String.data_append]
      have h4 : ("DROP TABLE IF EXISTS" : String).data =
          'D' :: ("ROP TABLE IF EXISTS" : String).data := by decide
      rw [h4]
      rfl
    rw [heq, h3] at h1
    exact absurd h1 (by decide)

/-! ### Claims C3, C4, C7, C9, C10 -/

/-- C3: when writing the pg_restore include-list, an entry whose object
oid has a done file in the index work directory, or which is rejected by
the exclusion filters, gets its line prefixed with the comment sentinel
`";"`; every other entry's line is emitted verbatim, preserving dumpId,
catalogOid, objectOid, description and restore-list name; and
`copydb_write_restore_list` writes exactly the concatenation of those
per-entry lines to the list file. -/
theorem write_restore_list_comments_done_or_filtered
    (specs : CopyDataSpec) (w : World) (item : ArchiveContentItem) :
    ((copydb_objectid_has_been_processed_already specs w item.objectOid = true ∨
      w.filteredOut item.objectOid item.restoreListName = true) →
        restoreListLine specs w item = ";" ++ verbatimArchiveLine item) ∧
    (copydb_objectid_has_been_processed_already specs w item.objectOid = false →
      w.filteredOut item.objectOid item.restoreListName = false →
        restoreListLine specs w item = verbatimArchiveLine item) ∧
    (∀ items, w.restoreListPre = some items →
      w.writeOk specs.preListFilename = true →
        copydb_write_restore_list specs w DumpSection.preData =
          (true, [Event.fileWrite specs.preListFilename
            (String.join (items.map (restoreListLine specs w)))])) := by
  refine ⟨?_, ?_, ?_⟩
  · intro h
    by_cases hd : copydb_objectid_has_been_processed_already specs w item.objectOid
    · simp [restoreListLine, hd]
    · rcases h with h | h
      · exact absurd h hd
      · simp [restoreListLine, hd, h]
  · intro h1 h2
    show (if _ then ";" else if _ then ";" else "") ++ _ = _
    rw [h1, h2]
    rfl
  · intro items h1 h2
    simp [copydb_write_restore_list, h1, h2]

/-- Witness for C3 at concrete inputs: an entry with a done marker is
commented, an entry that is neither done nor filtered is verbatim, and
the list file receives the joined lines. -/
theorem write_restore_list_comments_done_or_filtered_witness :
    restoreListLine exSpecs exWorldOid101Done exItem =
      ";" ++ verbatimArchiveLine exItem ∧
    restoreListLine exSpecs exWorld exItem = verbatimArchiveLine exItem ∧
    copydb_write_restore_list exSpecs exWorld DumpSection.preData =
      (true, [Event.fileWrite exSpecs.preListFilename
        (String.join ([exItem].map (restoreListLine exSpecs exWorld)))]) :=
  ⟨(write_restore_list_comments_done_or_filtered exSpecs exWorldOid101Done exItem).1
      (Or.inl (by rfl)),
   (write_restore_list_comments_done_or_filtered exSpecs exWorld exItem).2.1
      (by rfl) (by rfl),
   (write_restore_list_comments_done_or_filtered exSpecs exWorld exItem).2.2
      [exItem] (by rfl) (by rfl)⟩

/-- C4 (code bug): when writing the pg_restore include-list file fails,
`copydb_target_prepare_schema` and `copydb_target_finalize_schema`
nonetheless return success (`true`) — the source logs the error and then
returns `true` — contradicting the claim (and the spec) that a write
failure to the work directory is fatal.  Evaluated here at a concrete
world where writing either list file fails. -/
theorem restore_schema_success_despite_list_write_failure :
    copydb_target_prepare_schema exSpecs exWorldListWriteFails = (true, []) ∧
    copydb_target_finalize_schema exSpecs exWorldListWriteFails = (true, []) := by
  constructor <;> rfl

/-- C7 (code bug): a restore unit that did not do its work still reports
success.  With `pg_restore --list` failing, `copydb_target_prepare_schema`
returns `true` while its trace is empty: no restore was run and no
done-marker was written, so "on success of the unit the done-marker file
is written as the last action" fails on this path. -/
theorem prepare_schema_success_without_done_marker :
    copydb_target_prepare_schema exSpecs exWorldRestoreListFails = (true, []) := by
  rfl

/-- C9: when extensions are not skipped and `fork` succeeds,
`copydb_start_extension_data_process` returns success in the parent
without waiting for the child, whatever the child's copy outcome. -/
theorem start_extension_data_process_detaches (specs : CopyDataSpec) (w : World)
    (h1 : specs.skipExtensions = false) (h2 : w.forkOk = true) :
    (copydb_start_extension_data_process specs w).ok = true ∧
    (copydb_start_extension_data_process specs w).waited = false := by
  simp [copydb_start_extension_data_process, h1, h2]

/-- Witness for C9 at a concrete world in which the child's copy of the
extension configuration tables fails (the child exits with the internal
error code 12): the parent still returns success without waiting. -/
theorem start_extension_data_process_detaches_witness :
    exSpecs.skipExtensions = false ∧ exWorldExtCopyFails.forkOk = true ∧
    ((copydb_start_extension_data_process exSpecs exWorldExtCopyFails).ok = true ∧
     (copydb_start_extension_data_process exSpecs exWorldExtCopyFails).waited = false) ∧
    (copydb_start_extension_data_process exSpecs exWorldExtCopyFails).childExit =
      some 12 :=
  ⟨rfl, rfl,
   start_extension_data_process_detaches exSpecs exWorldExtCopyFails rfl rfl,
   by rfl⟩

/-- C10: with an empty source table array, `copydb_target_drop_tables`
returns success and performs no action at all on the target database. -/
theorem target_drop_tables_empty_noop (specs : CopyDataSpec) (w : World)
    (h : specs.sourceTableArray = []) :
    copydb_target_drop_tables specs w = (true, []) := by
  simp [copydb_target_drop_tables, h]

/-- Witness for C10 at a concrete spec with no tables. -/
theorem target_drop_tables_empty_noop_witness :
    exSpecsNoTables.sourceTableArray = [] ∧
    copydb_target_drop_tables exSpecsNoTables exWorld = (true, []) :=
  ⟨by rfl, target_drop_tables_empty_noop exSpecsNoTables exWorld (by rfl)⟩

/-- Full characterization of a successful run of
`copydb_target_prepare_schema`: the list file is written first, then the
optional DROP TABLE statement, then the optional CREATE SCHEMA
statements, then pg_restore, then the done marker. -/
theorem prepare_schema_trace (specs : CopyDataSpec) (w : World)
    (items : List ArchiveContentItem)
    (hpre : file_exists w specs.preFilename = true)
    (hdone : file_exists w specs.donePreDataRestore = false)
    (hlist : w.restoreListPre = some items)
    (hwl : w.writeOk specs.preListFilename = true)
    (hinit : w.targetInitOk = true)
    (hdrop : w.dropExecOk = true)
    (hns : w.nsExecOk = true)
    (hrestore : w.pgRestorePreOk = true)
    (hwd : w.writeOk specs.donePreDataRestore = true) :
    copydb_target_prepare_schema specs w =
      (true,
        Event.fileWrite specs.preListFilename
            (String.join (items.map (restoreListLine specs w))) ::
          ((if specs.dropIfExists ∧ specs.sourceTableArray ≠ [] then
              [Event.execTarget (dropTablesQuery specs.sourceTableArray)]
            else []) ++
           (if specs.includeOnlySchemaList ≠ [] then
              [Event.execTarget (createSchemasQuery specs.includeOnlySchemaList)]
            else []) ++
           [Event.runRestore specs.preFilename specs.preListFilename,
            Event.fileWrite specs.donePreDataRestore ""])) := by
  by_cases hde : specs.dropIfExists <;>
    by_cases htab : specs.sourceTableArray = [] <;>
      by_cases hsch : specs.includeOnlySchemaList = [] <;>
        simp [copydb_target_prepare_schema, copydb_write_restore_list,
          copydb_target_drop_tables, copydb_target_prepare_namespaces,
          hpre, hdone, hlist, hwl, hinit, hdrop, hns, hrestore, hwd,
          hde, htab, hsch]

/-- C5: on the path to the pre-data restore, exactly one SQL statement
equal to the composed `DROP TABLE IF EXISTS … CASCADE` text is executed
on the target when `--drop-if-exists` is set, and none when it is not;
when executed it precedes the pg_restore invocation; and the composed
text contains the quoted, schema-qualified name of every table of the
run's source table array. -/
theorem prepare_schema_drop_tables_single (specs : CopyDataSpec) (w : World)
    (items : List ArchiveContentItem)
    (hpre : file_exists w specs.preFilename = true)
    (hdone : file_exists w specs.donePreDataRestore = false)
    (hlist : w.restoreListPre = some items)
    (hwl : w.writeOk specs.preListFilename = true)
    (hinit : w.targetInitOk = true)
    (hdrop : w.dropExecOk = true)
    (hns : w.nsExecOk = true)
    (hrestore : w.pgRestorePreOk = true)
    (hwd : w.writeOk specs.donePreDataRestore = true)
    (htab : specs.sourceTableArray ≠ []) :
    ((copydb_target_prepare_schema specs w).2.count
        (Event.execTarget (dropTablesQuery specs.sourceTableArray)) =
      if specs.dropIfExists then 1 else 0) ∧
    (specs.dropIfExists = true →
      ∃ l1 l2 l3, (copydb_target_prepare_schema specs w).2 =
        l1 ++ Event.execTarget (dropTablesQuery specs.sourceTableArray) ::
          (l2 ++ Event.runRestore specs.preFilename specs.preListFilename :: l3)) ∧
    (∀ t ∈ specs.sourceTableArray, ∃ x y : String,
      dropTablesQuery specs.sourceTableArray =
        x ++ (quotedTableName t ++ y)) := by
  have htr := prepare_schema_trace specs w items hpre hdone hlist hwl hinit
    hdrop hns hrestore hwd
  refine ⟨?_, ?_, dropTablesQuery_mem specs.sourceTableArray⟩
  · rw [htr]
    by_cases hde : specs.dropIfExists <;> by_cases hsch : specs.includeOnlySchemaList = []
    · simp [hde, htab, hsch, List.count_cons, List.count_append]
    · have hne := createSchemasQuery_ne_dropTablesQuery
        specs.includeOnlySchemaList specs.sourceTableArray hsch
      simp [hde, htab, hsch, List.count_cons, List.count_append, hne]
    · simp [hde, htab, hsch, List.count_cons, List.count_append]
    · have hne := createSchemasQuery_ne_dropTablesQuery
        specs.includeOnlySchemaList specs.sourceTableArray hsch
      simp [hde, htab, hsch, List.count_cons, List.count_append, hne]
  · intro hde
    rw [htr]
    by_cases hsch : specs.includeOnlySchemaList = []
    · refine ⟨[Event.fileWrite specs.preListFilename
          (String.join (items.map (restoreListLine specs w)))], [],
        [Event.fileWrite specs.donePreDataRestore ""], ?_⟩
      simp [hde, htab, hsch]
    · refine ⟨[Event.fileWrite specs.preListFilename
          (String.join (items.map (restoreListLine specs w)))],
        [Event.execTarget (createSchemasQuery specs.includeOnlySchemaList)],
        [Event.fileWrite specs.donePreDataRestore ""], ?_⟩
      simp [hde, htab, hsch]

/-- Witness for C5 at concrete inputs (two tables, drop-if-exists set). -/
theorem prepare_schema_drop_tables_single_witness :
    ((copydb_target_prepare_schema exSpecs exWorld).2.count
        (Event.execTarget (dropTablesQuery exSpecs.sourceTableArray)) =
      if exSpecs.dropIfExists then 1 else 0) ∧
    (exSpecs.dropIfExists = true →
      ∃ l1 l2 l3, (copydb_target_prepare_schema exSpecs exWorld).2 =
        l1 ++ Event.execTarget (dropTablesQuery exSpecs.sourceTableArray) ::
          (l2 ++ Event.runRestore exSpecs.preFilename exSpecs.preListFilename :: l3)) ∧
    (∀ t ∈ exSpecs.sourceTableArray, ∃ x y : String,
      dropTablesQuery exSpecs.sourceTableArray =
        x ++ (quotedTableName t ++ y)) :=
  prepare_schema_drop_tables_single exSpecs exWorld [exItem]
    (by rfl) (by rfl) (by rfl) (by rfl) (by rfl) (by rfl) (by rfl) (by rfl)
    (by rfl) (by simp [exSpecs])

/-- C8: when the include-only-schema list is non-empty, the single query
executed by `copydb_target_prepare_namespaces` — containing one
`CREATE SCHEMA IF NOT EXISTS "nsp";` statement per listed schema — is
executed on the target exactly once, before the pg_restore invocation;
when the list is empty, the only SQL that can reach the target on this
path is the DROP TABLE statement. -/
theorem prepare_schema_creates_namespaces (specs : CopyDataSpec) (w : World)
    (items : List ArchiveContentItem)
    (hpre : file_exists w specs.preFilename = true)
    (hdone : file_exists w specs.donePreDataRestore = false)
    (hlist : w.restoreListPre = some items)
    (hwl : w.writeOk specs.preListFilename = true)
    (hinit : w.targetInitOk = true)
    (hdrop : w.dropExecOk = true)
    (hns : w.nsExecOk = true)
    (hrestore : w.pgRestorePreOk = true)
    (hwd : w.writeOk specs.donePreDataRestore = true) :
    (specs.includeOnlySchemaList ≠ [] →
      ((copydb_target_prepare_schema specs w).2.count
          (Event.execTarget (createSchemasQuery specs.includeOnlySchemaList)) = 1) ∧
      (∃ l1 l2 l3, (copydb_target_prepare_schema specs w).2 =
        l1 ++ Event.execTarget (createSchemasQuery specs.includeOnlySchemaList) ::
          (l2 ++ Event.runRestore specs.preFilename specs.preListFilename :: l3)) ∧
      (∀ n ∈ specs.includeOnlySchemaList, ∃ x y : String,
        createSchemasQuery specs.includeOnlySchemaList =
          x ++ (("CREATE SCHEMA IF NOT EXISTS \"" ++ (n ++ "\";")) ++ y))) ∧
    (specs.includeOnlySchemaList = [] →
      ∀ q, Event.execTarget q ∈ (copydb_target_prepare_schema specs w).2 →
        q = dropTablesQuery specs.sourceTableArray) := by
  have htr := prepare_schema_trace specs w items hpre hdone hlist hwl hinit
    hdrop hns hrestore hwd
  constructor
  · intro hsch
    have hne := createSchemasQuery_ne_dropTablesQuery
      specs.includeOnlySchemaList specs.sourceTableArray hsch
    refine ⟨?_, ?_, createSchemasQuery_mem specs.includeOnlySchemaList⟩
    · rw [htr]
      by_cases hde : specs.dropIfExists ∧ specs.sourceTableArray ≠ [] <;>
        simp [hde, hsch, List.count_cons, List.count_append, hne]
    · rw [htr]
      by_cases hde : specs.dropIfExists ∧ specs.sourceTableArray ≠ []
      · refine ⟨[Event.fileWrite specs.preListFilename
            (String.join (items.map (restoreListLine specs w))),
          Event.execTarget (dropTablesQuery specs.sourceTableArray)], [],
          [Event.fileWrite specs.donePreDataRestore ""], ?_⟩
        simp [hde, hsch]
      · refine ⟨[Event.fileWrite specs.preListFilename
            (String.join (items.map (restoreListLine specs w)))], [],
          [Event.fileWrite specs.donePreDataRestore ""], ?_⟩
        simp [hde, hsch]
  · intro hsch q hq
    rw [htr] at hq
    by_cases hde : specs.dropIfExists ∧ specs.sourceTableArray ≠ [] <;>
      simp [hde, hsch] at hq
    exact hq

/-- Witness for C8 at concrete inputs (schema list `["s1"]`). -/
theorem prepare_schema_creates_namespaces_witness :
    (exSpecs.includeOnlySchemaList ≠ [] →
      ((copydb_target_prepare_schema exSpecs exWorld).2.count
          (Event.execTarget (createSchemasQuery exSpecs.includeOnlySchemaList)) = 1) ∧
      (∃ l1 l2 l3, (copydb_target_prepare_schema exSpecs exWorld).2 =
        l1 ++ Event.execTarget (createSchemasQuery exSpecs.includeOnlySchemaList) ::
          (l2 ++ Event.runRestore exSpecs.preFilename exSpecs.preListFilename :: l3)) ∧
      (∀ n ∈ exSpecs.includeOnlySchemaList, ∃ x y : String,
        createSchemasQuery exSpecs.includeOnlySchemaList =
          x ++ (("CREATE SCHEMA IF NOT EXISTS \"" ++ (n ++ "\";")) ++ y))) ∧
    (exSpecs.includeOnlySchemaList = [] →
      ∀ q, Event.execTarget q ∈ (copydb_target_prepare_schema exSpecs exWorld).2 →
        q = dropTablesQuery exSpecs.sourceTableArray) :=
  prepare_schema_creates_namespaces exSpecs exWorld [exItem]
    (by rfl) (by rfl) (by rfl) (by rfl) (by rfl) (by rfl) (by rfl) (by rfl)
    (by rfl)

/-! ### Lemmas about the live-replay applier -/

theorem stream_apply_sql_fields (ctx : StreamApplyContext) (m : Msg) :
    (stream_apply_sql ctx m).sentinelQueryInProgress = ctx.sentinelQueryInProgress ∧
    (stream_apply_sql ctx m).sentinelSyncTime = ctx.sentinelSyncTime ∧
    (stream_apply_sql ctx m).endpos = ctx.endpos := by
  unfold stream_apply_sql
  cases m.action <;> first
    | exact ⟨rfl, rfl, rfl⟩
    | (split_ifs <;> exact ⟨rfl, rfl, rfl⟩)

theorem sentinel_progress_shape (w : ReplayWorld) (c1 : StreamApplyContext)
    (m : Msg) :
    sentinel_progress w c1 m = (c1, []) ∨
    (c1.sentinelQueryInProgress = true ∧
      sentinel_progress w c1 m =
        ({ c1 with sentinelQueryInProgress := false,
                   endpos := w.sentinelEndpos }, [SentinelEv.drain])) ∨
    (c1.sentinelQueryInProgress = false ∧
      sentinel_progress w c1 m =
        ({ c1 with sentinelQueryInProgress := true,
                   sentinelSyncTime := m.now },
         [SentinelEv.send c1.replay_lsn])) := by
  unfold sentinel_progress
  cases hm : m.action
  case commit =>
    by_cases hq : c1.sentinelQueryInProgress
    · exact Or.inr (Or.inl ⟨hq, by simp [hq]⟩)
    · by_cases hr : 1 < m.now - c1.sentinelSyncTime
      · exact Or.inr (Or.inr ⟨by simpa using hq, by simp [hq, hr]⟩)
      · exact Or.inl (by simp [hq, hr])
  case keepalive =>
    by_cases hq : c1.sentinelQueryInProgress
    · exact Or.inr (Or.inl ⟨hq, by simp [hq]⟩)
    · by_cases hr : 1 < m.now - c1.sentinelSyncTime
      · exact Or.inr (Or.inr ⟨by simpa using hq, by simp [hq, hr]⟩)
      · exact Or.inl (by simp [hq, hr])
  all_goals exact Or.inl rfl

theorem stop_update_fields (p : Prop) [Decidable p] (c : StreamApplyContext) :
    ((if p then { c with reachedEndPos := true } else c).sentinelQueryInProgress =
      c.sentinelQueryInProgress) ∧
    ((if p then { c with reachedEndPos := true } else c).previousLSN =
      c.previousLSN) ∧
    ((if p then { c with reachedEndPos := true } else c).replay_lsn =
      c.replay_lsn) ∧
    ((if p then { c with reachedEndPos := true } else c).endpos = c.endpos) ∧
    ((if p then { c with reachedEndPos := true } else c).applied = c.applied) ∧
    ((if p then { c with reachedEndPos := true } else c).transactionInProgress =
      c.transactionInProgress) ∧
    ((if p then { c with reachedEndPos := true } else c).sentinelSyncTime =
      c.sentinelSyncTime) := by
  split <;> exact ⟨rfl, rfl, rfl, rfl, rfl, rfl, rfl⟩

theorem stream_replay_line_shape (w : ReplayWorld) (ctx : StreamApplyContext)
    (m : Msg) (lr : LineRes) (h : stream_replay_line w ctx m = some lr) :
    (lr.evs = [] ∧ lr.ctx.sentinelQueryInProgress = ctx.sentinelQueryInProgress) ∨
    (ctx.sentinelQueryInProgress = true ∧ lr.evs = [SentinelEv.drain] ∧
      lr.ctx.sentinelQueryInProgress = false) ∨
    (ctx.sentinelQueryInProgress = false ∧ (∃ l, lr.evs = [SentinelEv.send l]) ∧
      lr.ctx.sentinelQueryInProgress = true) := by
  by_cases hp : m.parseOk = false
  · simp [stream_replay_line, hp] at h
  · have hf := (stream_apply_sql_fields ctx m).1
    simp only [stream_replay_line] at h
    rw [if_neg hp] at h
    rcases sentinel_progress_shape w (stream_apply_sql ctx m) m with
      hs | ⟨hq, hs⟩ | ⟨hq, hs⟩ <;>
        rw [hs] at h <;> simp only [Option.some.injEq] at h <;> subst h
    · exact Or.inl ⟨rfl, (stop_update_fields _ _).1.trans hf⟩
    · exact Or.inr (Or.inl ⟨hf.symm.trans hq, rfl, (stop_update_fields _ _).1⟩)
    · exact Or.inr (Or.inr ⟨hf.symm.trans hq, ⟨_, rfl⟩, (stop_update_fields _ _).1⟩)

theorem sentinel_progress_other (w : ReplayWorld) (c1 : StreamApplyContext)
    (m : Msg) (ha : m.action ≠ StreamAction.commit)
    (hb : m.action ≠ StreamAction.keepalive) :
    sentinel_progress w c1 m = (c1, []) := by
  cases hm : m.action <;> simp_all [sentinel_progress]

theorem sentinel_progress_drain (w : ReplayWorld) (c1 : StreamApplyContext)
    (m : Msg)
    (ha : m.action = StreamAction.commit ∨ m.action = StreamAction.keepalive)
    (hq : c1.sentinelQueryInProgress = true) :
    sentinel_progress w c1 m =
      ({ c1 with sentinelQueryInProgress := false,
                 endpos := w.sentinelEndpos }, [SentinelEv.drain]) := by
  rcases ha with ha | ha <;> simp [sentinel_progress, ha, hq]

theorem sentinel_progress_send (w : ReplayWorld) (c1 : StreamApplyContext)
    (m : Msg)
    (ha : m.action = StreamAction.commit ∨ m.action = StreamAction.keepalive)
    (hq : c1.sentinelQueryInProgress = false)
    (hr : 1 < m.now - c1.sentinelSyncTime) :
    sentinel_progress w c1 m =
      ({ c1 with sentinelQueryInProgress := true,
                 sentinelSyncTime := m.now },
       [SentinelEv.send c1.replay_lsn]) := by
  rcases ha with ha | ha <;> simp [sentinel_progress, ha, hq, hr]

theorem sentinel_progress_idle (w : ReplayWorld) (c1 : StreamApplyContext)
    (m : Msg) (hq : c1.sentinelQueryInProgress = false)
    (hr : ¬ 1 < m.now - c1.sentinelSyncTime) :
    sentinel_progress w c1 m = (c1, []) := by
  cases hm : m.action <;> simp [sentinel_progress, hm, hq, hr]

theorem read_from_stream_alt (w : ReplayWorld) :
    ∀ (msgs : List Msg) (ctx : StreamApplyContext),
      sentinelAlt ctx.sentinelQueryInProgress
        (read_from_stream w ctx msgs).evs = true := by
  intro msgs
  induction msgs with
  | nil => intro ctx; simp [read_from_stream, sentinelAlt]
  | cons m ms ih =>
    intro ctx
    cases hL : stream_replay_line w ctx m with
    | none => simp [read_from_stream, hL, sentinelAlt]
    | some lr =>
      have hrec := ih lr.ctx
      rcases stream_replay_line_shape w ctx m lr hL with
        ⟨h1, h2⟩ | ⟨h1, h2, h3⟩ | ⟨h1, ⟨l, h2⟩, h3⟩
      · rw [h2] at hrec
        by_cases hstop : lr.stop
        · simp [read_from_stream, hL, hstop, h1, sentinelAlt]
        · simp [read_from_stream, hL, hstop, h1, hrec]
      · rw [h3] at hrec
        by_cases hstop : lr.stop
        · simp [read_from_stream, hL, hstop, h1, h2, sentinelAlt]
        · simp [read_from_stream, hL, hstop, h1, h2, sentinelAlt, hrec]
      · rw [h3] at hrec
        by_cases hstop : lr.stop
        · simp [read_from_stream, hL, hstop, h1, h2, sentinelAlt]
        · simp [read_from_stream, hL, hstop, h1, h2, sentinelAlt, hrec]

theorem read_from_stream_no_finalSync (w : ReplayWorld) :
    ∀ (msgs : List Msg) (ctx : StreamApplyContext) (l : Nat),
      SentinelEv.finalSync l ∉ (read_from_stream w ctx msgs).evs := by
  intro msgs
  induction msgs with
  | nil => intro ctx l; simp [read_from_stream]
  | cons m ms ih =>
    intro ctx l
    cases hL : stream_replay_line w ctx m with
    | none => simp [read_from_stream, hL]
    | some lr =>
      have hev : SentinelEv.finalSync l ∉ lr.evs := by
        rcases stream_replay_line_shape w ctx m lr hL with
          ⟨h1, _⟩ | ⟨_, h1, _⟩ | ⟨_, ⟨x, h1⟩, _⟩ <;> simp [h1]
      by_cases hstop : lr.stop
      · have hres : (read_from_stream w ctx (m :: ms)).evs = lr.evs := by
          simp [read_from_stream, hL, hstop]
        rw [hres]
        exact hev
      · have hres : (read_from_stream w ctx (m :: ms)).evs =
            lr.evs ++ (read_from_stream w lr.ctx ms).evs := by
          simp [read_from_stream, hL, hstop]
        rw [hres]
        intro hmem
        rcases List.mem_append.mp hmem with h | h
        · exact hev h
        · exact ih lr.ctx l h

/-- C6: progress reporting of the live replay.  A sentinel action happens
only on COMMIT and KEEPALIVE lines; when a previous asynchronous update
is still in flight the line drains it instead of sending a new one; a new
asynchronous update, carrying the last applied commit LSN, is sent only
when more than one second elapsed since the recorded send time, and its
send time is recorded — and along any run of the read loop the sentinel
actions alternate send/drain from the starting in-flight state, so at
most one sentinel query is ever in flight. -/
theorem stream_replay_line_sentinel_discipline (w : ReplayWorld)
    (ctx : StreamApplyContext) (m : Msg) (hp : m.parseOk = true) :
    (∃ lr, stream_replay_line w ctx m = some lr ∧
      ((m.action ≠ StreamAction.commit ∧ m.action ≠ StreamAction.keepalive) →
        lr.evs = []) ∧
      ((m.action = StreamAction.commit ∨ m.action = StreamAction.keepalive) →
        ctx.sentinelQueryInProgress = true →
          lr.evs = [SentinelEv.drain] ∧
          lr.ctx.sentinelQueryInProgress = false) ∧
      ((m.action = StreamAction.commit ∨ m.action = StreamAction.keepalive) →
        ctx.sentinelQueryInProgress = false →
          (¬ 1 < m.now - ctx.sentinelSyncTime → lr.evs = []) ∧
          (1 < m.now - ctx.sentinelSyncTime →
            lr.evs = [SentinelEv.send lr.ctx.replay_lsn] ∧
            lr.ctx.sentinelQueryInProgress = true ∧
            lr.ctx.sentinelSyncTime = m.now))) ∧
    (∀ (msgs : List Msg) (c : StreamApplyContext),
      sentinelAlt c.sentinelQueryInProgress
        (read_from_stream w c msgs).evs = true) := by
  have hpne : ¬ (m.parseOk = false) := by simp [hp]
  have hf := stream_apply_sql_fields ctx m
  refine ⟨?_, fun msgs c => read_from_stream_alt w msgs c⟩
  cases hE : stream_replay_line w ctx m with
  | none =>
    exfalso
    simp only [stream_replay_line] at hE
    rw [if_neg hpne] at hE
    exact Option.noConfusion hE
  | some lr =>
    have hE' := hE
    simp only [stream_replay_line] at hE'
    rw [if_neg hpne] at hE'
    refine ⟨lr, rfl, ?_, ?_, ?_⟩
    · rintro ⟨ha, hb⟩
      have hs := sentinel_progress_other w (stream_apply_sql ctx m) m ha hb
      rw [hs] at hE'
      have hlr := (Option.some.inj hE').symm
      subst hlr
      rfl
    · intro hak hq
      have hs := sentinel_progress_drain w (stream_apply_sql ctx m) m hak
        (hf.1.trans hq)
      rw [hs] at hE'
      have hlr := (Option.some.inj hE').symm
      subst hlr
      refine ⟨rfl, ?_⟩
      show (if _ then _ else _ : StreamApplyContext).sentinelQueryInProgress = false
      split <;> rfl
    · intro hak hq
      constructor
      · intro hr
        have hs := sentinel_progress_idle w (stream_apply_sql ctx m) m
          (hf.1.trans hq) (by rw [hf.2.1]; exact hr)
        rw [hs] at hE'
        have hlr := (Option.some.inj hE').symm
        subst hlr
        rfl
      · intro hr
        have hs := sentinel_progress_send w (stream_apply_sql ctx m) m hak
          (hf.1.trans hq) (by rw [hf.2.1]; exact hr)
        rw [hs] at hE'
        have hlr := (Option.some.inj hE').symm
        subst hlr
        refine ⟨?_, ?_, ?_⟩
        · show _ = [SentinelEv.send
            (if _ then _ else _ : StreamApplyContext).replay_lsn]
          split <;> rfl
        · show (if _ then _ else _ : StreamApplyContext).sentinelQueryInProgress =
            true
          split <;> rfl
        · show (if _ then _ else _ : StreamApplyContext).sentinelSyncTime = m.now
          split <;> rfl

/-- Witness for C6 at concrete inputs: with a query in flight, a COMMIT
line drains it; and the alternation invariant holds on the concrete
transaction stream. -/
theorem stream_replay_line_sentinel_discipline_witness :
    (∃ lr, stream_replay_line exRWorld exCtxInFlight exCommitMsg = some lr ∧
      ((exCommitMsg.action ≠ StreamAction.commit ∧
        exCommitMsg.action ≠ StreamAction.keepalive) → lr.evs = []) ∧
      ((exCommitMsg.action = StreamAction.commit ∨
        exCommitMsg.action = StreamAction.keepalive) →
        exCtxInFlight.sentinelQueryInProgress = true →
          lr.evs = [SentinelEv.drain] ∧
          lr.ctx.sentinelQueryInProgress = false) ∧
      ((exCommitMsg.action = StreamAction.commit ∨
        exCommitMsg.action = StreamAction.keepalive) →
        exCtxInFlight.sentinelQueryInProgress = false →
          (¬ 1 < exCommitMsg.now - exCtxInFlight.sentinelSyncTime →
            lr.evs = []) ∧
          (1 < exCommitMsg.now - exCtxInFlight.sentinelSyncTime →
            lr.evs = [SentinelEv.send lr.ctx.replay_lsn] ∧
            lr.ctx.sentinelQueryInProgress = true ∧
            lr.ctx.sentinelSyncTime = exCommitMsg.now))) ∧
    (∀ (msgs : List Msg) (c : StreamApplyContext),
      sentinelAlt c.sentinelQueryInProgress
        (read_from_stream exRWorld c msgs).evs = true) :=
  stream_replay_line_sentinel_discipline exRWorld exCtxInFlight exCommitMsg
    (by rfl)

theorem getLast_append_pair (a : List SentinelEv) (x y : SentinelEv) :
    (a ++ [x, y]).getLast? = some y := by
  rw [show a ++ [x, y] = (a ++ [x]) ++ [y] by simp]
  exact List.getLast?_concat _

/-- Counterexample to C2 as stated: an error exit of the live-replay
applier on which no sentinel update at all is performed.  The input's
only line fails to parse, the callback fails, `read_from_stream` fails,
and `stream_apply_replay` returns `false` immediately — without the final
synchronous sentinel update (its event trace is empty). -/
theorem stream_apply_replay_error_exit_no_final_sync :
    stream_apply_replay exRWorld exCtxNoEndpos exBadMsgs =
      ⟨false, exCtxNoEndpos, [], []⟩ := by
  rfl

/-- C2 (amended): the final synchronous sentinel update is performed
exactly on the normal-completion exit of the live-replay applier — when
the read loop ends (input exhausted or endpos reached), the last sentinel
action of the run is the final synchronous update.  The early exit taken
when a non-zero endpos was already reached performs no sentinel action at
all, and error exits (source connection failure, stream read/parse
failure) return `false` without the final update having been
performed. -/
theorem stream_apply_replay_final_sync_on_completion (w : ReplayWorld)
    (ctx : StreamApplyContext) (msgs : List Msg) :
    (ctx.endpos ≠ 0 → ctx.endpos ≤ ctx.previousLSN →
      stream_apply_replay w ctx msgs = ⟨true, ctx, [], msgs⟩) ∧
    ((stream_apply_replay w ctx msgs).ok = true →
      ¬ (ctx.endpos ≠ 0 ∧ ctx.endpos ≤ ctx.previousLSN) →
      ∃ l, ((stream_apply_replay w ctx msgs).evs).getLast? =
        some (SentinelEv.finalSync l)) ∧
    ((stream_apply_replay w ctx msgs).ok = false →
      ∀ l, SentinelEv.finalSync l ∉ (stream_apply_replay w ctx msgs).evs) := by
  by_cases hearly : ctx.endpos ≠ 0 ∧ ctx.endpos ≤ ctx.previousLSN
  · refine ⟨fun _ _ => by simp [stream_apply_replay, hearly], ?_, ?_⟩
    · intro _ hne
      exact absurd hearly hne
    · intro hok
      simp [stream_apply_replay, hearly] at hok
  · refine ⟨fun hz hle => absurd ⟨hz, hle⟩ hearly, ?_, ?_⟩
    · by_cases hinit : w.srcInitOk
      · by_cases hro : (read_from_stream w ctx msgs).ok = false
        · intro hok
          simp [stream_apply_replay, hearly, hinit, hro] at hok
        · intro _ _
          refine ⟨(read_from_stream w ctx msgs).ctx.replay_lsn, ?_⟩
          by_cases hq : (read_from_stream w ctx msgs).ctx.sentinelQueryInProgress
          · simp [stream_apply_replay, hearly, hinit, hro, hq,
              getLast_append_pair]
          · simp [stream_apply_replay, hearly, hinit, hro, hq,
              List.getLast?_concat]
      · intro hok
        simp [stream_apply_replay, hearly, hinit] at hok
    · by_cases hinit : w.srcInitOk
      · by_cases hro : (read_from_stream w ctx msgs).ok = false
        · intro _ l
          have hevs : (stream_apply_replay w ctx msgs).evs =
              (read_from_stream w ctx msgs).evs := by
            simp [stream_apply_replay, hearly, hinit, hro]
          rw [hevs]
          exact read_from_stream_no_finalSync w msgs ctx l
        · intro hok
          exfalso
          by_cases hq : (read_from_stream w ctx msgs).ctx.sentinelQueryInProgress <;>
            simp [stream_apply_replay, hearly, hinit, hro, hq] at hok
      · intro _ l
        have hevs : (stream_apply_replay w ctx msgs).evs = [] := by
          simp [stream_apply_replay, hearly, hinit]
        rw [hevs]
        exact List.not_mem_nil _

/-- Witness for C2's amended statement: on a concrete complete run the
last sentinel action is the final synchronous update, and on a concrete
failing run no final update appears in the trace. -/
theorem stream_apply_replay_final_sync_on_completion_witness :
    (∃ l, ((stream_apply_replay exRWorld exCtx (txnStream exTxns)).evs).getLast? =
      some (SentinelEv.finalSync l)) ∧
    (∀ l, SentinelEv.finalSync l ∉
      (stream_apply_replay exRWorld exCtxNoEndpos exBadMsgs).evs) :=
  ⟨(stream_apply_replay_final_sync_on_completion exRWorld exCtx
      (txnStream exTxns)).2.1 (by rfl) (by decide),
   (stream_apply_replay_final_sync_on_completion exRWorld exCtxNoEndpos
      exBadMsgs).2.2 (by rfl)⟩

theorem read_from_stream_append (w : ReplayWorld) :
    ∀ (A B : List Msg) (ctx : StreamApplyContext),
      read_from_stream w ctx (A ++ B) =
        if (read_from_stream w ctx A).ok = false then
          ⟨false, (read_from_stream w ctx A).stopped,
           (read_from_stream w ctx A).ctx, (read_from_stream w ctx A).evs,
           (read_from_stream w ctx A).rest ++ B⟩
        else if (read_from_stream w ctx A).stopped then
          ⟨true, true, (read_from_stream w ctx A).ctx,
           (read_from_stream w ctx A).evs,
           (read_from_stream w ctx A).rest ++ B⟩
        else
          ⟨(read_from_stream w (read_from_stream w ctx A).ctx B).ok,
           (read_from_stream w (read_from_stream w ctx A).ctx B).stopped,
           (read_from_stream w (read_from_stream w ctx A).ctx B).ctx,
           (read_from_stream w ctx A).evs ++
             (read_from_stream w (read_from_stream w ctx A).ctx B).evs,
           (read_from_stream w (read_from_stream w ctx A).ctx B).rest⟩ := by
  intro A
  induction A with
  | nil =>
    intro B ctx
    simp [read_from_stream]
  | cons m ms ih =>
    intro B ctx
    cases hL : stream_replay_line w ctx m with
    | none =>
      simp [read_from_stream, hL]
    | some lr =>
      by_cases hstop : lr.stop
      · simp [read_from_stream, hL, hstop]
      · by_cases hok : (read_from_stream w lr.ctx ms).ok = false <;>
          by_cases hstp : (read_from_stream w lr.ctx ms).stopped <;>
            simp [read_from_stream, hL, hstop, ih B lr.ctx, hok, hstp,
              List.append_assoc]

theorem dml_line (w : ReplayWorld) (ctx : StreamApplyContext) (m : Msg)
    (hD : isDML m.action = true) (hP : m.parseOk = true)
    (hR : ctx.reachedEndPos = false)
    (hS : ctx.previousLSN < ctx.endpos) :
    stream_replay_line w ctx m = some ⟨ctx, [], false⟩ := by
  have hnsp : ¬ (ctx.endpos ≤ ctx.previousLSN) := Nat.not_le.mpr hS
  have ha : stream_apply_sql ctx m = ctx := by
    cases hm : m.action <;> simp_all [isDML, stream_apply_sql]
  have ho : sentinel_progress w ctx m = (ctx, []) := by
    cases hm : m.action <;> simp_all [isDML, sentinel_progress]
  simp [stream_replay_line, hP, ha, ho, hR, hnsp]

theorem body_run (w : ReplayWorld) :
    ∀ (body : List Msg) (ctx : StreamApplyContext),
      (∀ m ∈ body, isDML m.action = true ∧ m.parseOk = true) →
      ctx.reachedEndPos = false →
      ctx.previousLSN < ctx.endpos →
      read_from_stream w ctx body = ⟨true, false, ctx, [], []⟩ := by
  intro body
  induction body with
  | nil =>
    intro ctx _ _ _
    simp [read_from_stream]
  | cons m ms ih =>
    intro ctx hb hR hS
    have hm := hb m (List.mem_cons_self m ms)
    have hL := dml_line w ctx m hm.1 hm.2 hR hS
    simp [read_from_stream, hL,
      ih ctx (fun x hx => hb x (List.mem_cons_of_mem m hx)) hR hS]

theorem commit_in_txnStream (ts : List Txn) (t : Txn) (ht : t ∈ ts) :
    ∃ m ∈ txnStream ts, m.action = StreamAction.commit ∧ m.lsn = t.lsn := by
  refine ⟨⟨StreamAction.commit, t.lsn, t.commitTime, true⟩, ?_, rfl, rfl⟩
  simp only [txnStream, List.mem_flatten]
  refine ⟨Txn.msgs t, List.mem_map_of_mem Txn.msgs ht, ?_⟩
  simp [Txn.msgs]

theorem txn_step (w : ReplayWorld) (ctx : StreamApplyContext) (t : Txn)
    (hend : ctx.endpos = w.sentinelEndpos)
    (hnz : ctx.endpos ≠ 0)
    (hre : ctx.reachedEndPos = false)
    (htip : ctx.transactionInProgress = false)
    (hlt : ctx.previousLSN < ctx.endpos)
    (hgt : ctx.previousLSN < t.lsn)
    (hbody : ∀ m ∈ t.body, isDML m.action = true ∧ m.parseOk = true) :
    (ctx.endpos < t.lsn →
      read_from_stream w ctx t.msgs =
        ⟨true, true, { ctx with reachedEndPos := true }, [],
         t.body ++ [⟨StreamAction.commit, t.lsn, t.commitTime, true⟩]⟩) ∧
    (t.lsn ≤ ctx.endpos →
      ∃ c2 evs, read_from_stream w ctx t.msgs =
        ⟨true, decide (ctx.endpos ≤ t.lsn), c2, evs, []⟩ ∧
        c2.applied = ctx.applied ++ [t.lsn] ∧
        c2.previousLSN = t.lsn ∧
        c2.replay_lsn = t.lsn ∧
        c2.endpos = ctx.endpos ∧
        c2.transactionInProgress = false ∧
        c2.reachedEndPos = decide (ctx.endpos ≤ t.lsn)) := by
  constructor
  · intro hgtE
    have hline : stream_replay_line w ctx
        ⟨StreamAction.begin, t.lsn, t.beginTime, true⟩ =
        some ⟨{ ctx with reachedEndPos := true }, [], true⟩ := by
      simp [stream_replay_line, stream_apply_sql, sentinel_progress, hnz, hgtE]
    simp [Txn.msgs, read_from_stream, hline]
  · intro hle
    have hnlt : ¬ (ctx.endpos ≠ 0 ∧ ctx.endpos < t.lsn) :=
      fun hc => absurd hc.2 (Nat.not_lt.mpr hle)
    have hndup : ¬ t.lsn ≤ ctx.previousLSN := Nat.not_le.mpr hgt
    have hnsp : ¬ (ctx.endpos ≤ ctx.previousLSN) := Nat.not_le.mpr hlt
    have hbline : stream_replay_line w ctx
        ⟨StreamAction.begin, t.lsn, t.beginTime, true⟩ =
        some ⟨{ ctx with transactionInProgress := true }, [], false⟩ := by
      simp [stream_replay_line, stream_apply_sql, sentinel_progress,
        hnlt, hndup, hre, hnsp]
    have hbodyrun := body_run w t.body
      { ctx with transactionInProgress := true } hbody hre hlt
    have hbc : read_from_stream w { ctx with transactionInProgress := true }
        (t.body ++ [⟨StreamAction.commit, t.lsn, t.commitTime, true⟩]) =
        read_from_stream w { ctx with transactionInProgress := true }
          [⟨StreamAction.commit, t.lsn, t.commitTime, true⟩] := by
      rw [read_from_stream_append w t.body _ _, hbodyrun]
      simp
    have hrA : read_from_stream w ctx
        [⟨StreamAction.begin, t.lsn, t.beginTime, true⟩] =
        ⟨true, false, { ctx with transactionInProgress := true }, [], []⟩ := by
      simp [read_from_stream, hbline]
    by_cases hce : ctx.endpos ≤ t.lsn
    · have hceW : w.sentinelEndpos ≤ t.lsn := hend ▸ hce
      have hnzW : w.sentinelEndpos ≠ 0 := hend ▸ hnz
      by_cases hq : ctx.sentinelQueryInProgress
      · have hcl : stream_replay_line w { ctx with transactionInProgress := true }
            ⟨StreamAction.commit, t.lsn, t.commitTime, true⟩ =
            some ⟨⟨w.sentinelEndpos, t.lsn, t.lsn, true, false, false,
              ctx.sentinelSyncTime, ctx.applied ++ [t.lsn]⟩,
              [SentinelEv.drain], true⟩ := by
          simp [stream_replay_line, stream_apply_sql, sentinel_progress,
            hq, hce, hceW, hnz, hnzW, hre]
        have hrB : read_from_stream w { ctx with transactionInProgress := true }
            [⟨StreamAction.commit, t.lsn, t.commitTime, true⟩] =
            ⟨true, true, ⟨w.sentinelEndpos, t.lsn, t.lsn, true, false, false,
              ctx.sentinelSyncTime, ctx.applied ++ [t.lsn]⟩,
              [SentinelEv.drain], []⟩ := by
          simp [read_from_stream, hcl]
        refine ⟨⟨w.sentinelEndpos, t.lsn, t.lsn, true, false, false,
          ctx.sentinelSyncTime, ctx.applied ++ [t.lsn]⟩, [SentinelEv.drain],
          ?_, rfl, rfl, rfl, hend.symm, rfl, ?_⟩
        · rw [show t.msgs = [⟨StreamAction.begin, t.lsn, t.beginTime, true⟩] ++
              (t.body ++ [⟨StreamAction.commit, t.lsn, t.commitTime, true⟩])
              from rfl, read_from_stream_append w _ _ _, hrA]
          simp [hbc, hrB, hce]
        · simp [hce]
      · by_cases hr : 1 < t.commitTime - ctx.sentinelSyncTime
        · have hcl : stream_replay_line w
              { ctx with transactionInProgress := true }
              ⟨StreamAction.commit, t.lsn, t.commitTime, true⟩ =
              some ⟨⟨ctx.endpos, t.lsn, t.lsn, true, false, true,
                t.commitTime, ctx.applied ++ [t.lsn]⟩,
                [SentinelEv.send t.lsn], true⟩ := by
            simp [stream_replay_line, stream_apply_sql, sentinel_progress,
              hq, hr, hce, hnz, hre]
          have hrB : read_from_stream w
              { ctx with transactionInProgress := true }
              [⟨StreamAction.commit, t.lsn, t.commitTime, true⟩] =
              ⟨true, true, ⟨ctx.endpos, t.lsn, t.lsn, true, false, true,
                t.commitTime, ctx.applied ++ [t.lsn]⟩,
                [SentinelEv.send t.lsn], []⟩ := by
            simp [read_from_stream, hcl]
          refine ⟨⟨ctx.endpos, t.lsn, t.lsn, true, false, true,
            t.commitTime, ctx.applied ++ [t.lsn]⟩, [SentinelEv.send t.lsn],
            ?_, rfl, rfl, rfl, rfl, rfl, ?_⟩
          · rw [show t.msgs = [⟨StreamAction.begin, t.lsn, t.beginTime, true⟩] ++
                (t.body ++ [⟨StreamAction.commit, t.lsn, t.commitTime, true⟩])
                from rfl, read_from_stream_append w _ _ _, hrA]
            simp [hbc, hrB, hce]
          · simp [hce]
        · have hcl : stream_replay_line w
              { ctx with transactionInProgress := true }
              ⟨StreamAction.commit, t.lsn, t.commitTime, true⟩ =
              some ⟨⟨ctx.endpos, t.lsn, t.lsn, true, false, false,
                ctx.sentinelSyncTime, ctx.applied ++ [t.lsn]⟩,
                [], true⟩ := by
            simp [stream_replay_line, stream_apply_sql, sentinel_progress,
              hq, hr, hce, hnz, hre]
          have hrB : read_from_stream w
              { ctx with transactionInProgress := true }
              [⟨StreamAction.commit, t.lsn, t.commitTime, true⟩] =
              ⟨true, true, ⟨ctx.endpos, t.lsn, t.lsn, true, false, false,
                ctx.sentinelSyncTime, ctx.applied ++ [t.lsn]⟩, [], []⟩ := by
            simp [read_from_stream, hcl]
          refine ⟨⟨ctx.endpos, t.lsn, t.lsn, true, false, false,
            ctx.sentinelSyncTime, ctx.applied ++ [t.lsn]⟩, [],
            ?_, rfl, rfl, rfl, rfl, rfl, ?_⟩
          · rw [show t.msgs = [⟨StreamAction.begin, t.lsn, t.beginTime, true⟩] ++
                (t.body ++ [⟨StreamAction.commit, t.lsn, t.commitTime, true⟩])
                from rfl, read_from_stream_append w _ _ _, hrA]
            simp [hbc, hrB, hce]
          · simp [hce]
    · have hceW : ¬ w.sentinelEndpos ≤ t.lsn := hend ▸ hce
      by_cases hq : ctx.sentinelQueryInProgress
      · have hcl : stream_replay_line w { ctx with transactionInProgress := true }
            ⟨StreamAction.commit, t.lsn, t.commitTime, true⟩ =
            some ⟨⟨w.sentinelEndpos, t.lsn, t.lsn, false, false, false,
              ctx.sentinelSyncTime, ctx.applied ++ [t.lsn]⟩,
              [SentinelEv.drain], false⟩ := by
          simp [stream_replay_line, stream_apply_sql, sentinel_progress,
            hq, hce, hceW, hre]
        have hrB : read_from_stream w { ctx with transactionInProgress := true }
            [⟨StreamAction.commit, t.lsn, t.commitTime, true⟩] =
            ⟨true, false, ⟨w.sentinelEndpos, t.lsn, t.lsn, false, false, false,
              ctx.sentinelSyncTime, ctx.applied ++ [t.lsn]⟩,
              [SentinelEv.drain], []⟩ := by
          simp [read_from_stream, hcl]
        refine ⟨⟨w.sentinelEndpos, t.lsn, t.lsn, false, false, false,
          ctx.sentinelSyncTime, ctx.applied ++ [t.lsn]⟩, [SentinelEv.drain],
          ?_, rfl, rfl, rfl, hend.symm, rfl, ?_⟩
        · rw [show t.msgs = [⟨StreamAction.begin, t.lsn, t.beginTime, true⟩] ++
              (t.body ++ [⟨StreamAction.commit, t.lsn, t.commitTime, true⟩])
              from rfl, read_from_stream_append w _ _ _, hrA]
          simp [hbc, hrB, hce]
        · simp [hce]
      · by_cases hr : 1 < t.commitTime - ctx.sentinelSyncTime
        · have hcl : stream_replay_line w
              { ctx with transactionInProgress := true }
              ⟨StreamAction.commit, t.lsn, t.commitTime, true⟩ =
              some ⟨⟨ctx.endpos, t.lsn, t.lsn, false, false, true,
                t.commitTime, ctx.applied ++ [t.lsn]⟩,
                [SentinelEv.send t.lsn], false⟩ := by
            simp [stream_replay_line, stream_apply_sql, sentinel_progress,
              hq, hr, hce, hre]
          have hrB : read_from_stream w
              { ctx with transactionInProgress := true }
              [⟨StreamAction.commit, t.lsn, t.commitTime, true⟩] =
              ⟨true, false, ⟨ctx.endpos, t.lsn, t.lsn, false, false, true,
                t.commitTime, ctx.applied ++ [t.lsn]⟩,
                [SentinelEv.send t.lsn], []⟩ := by
            simp [read_from_stream, hcl]
          refine ⟨⟨ctx.endpos, t.lsn, t.lsn, false, false, true,
            t.commitTime, ctx.applied ++ [t.lsn]⟩, [SentinelEv.send t.lsn],
            ?_, rfl, rfl, rfl, rfl, rfl, ?_⟩
          · rw [show t.msgs = [⟨StreamAction.begin, t.lsn, t.beginTime, true⟩] ++
                (t.body ++ [⟨StreamAction.commit, t.lsn, t.commitTime, true⟩])
                from rfl, read_from_stream_append w _ _ _, hrA]
            simp [hbc, hrB, hce]
          · simp [hce]
        · have hcl : stream_replay_line w
              { ctx with transactionInProgress := true }
              ⟨StreamAction.commit, t.lsn, t.commitTime, true⟩ =
              some ⟨⟨ctx.endpos, t.lsn, t.lsn, false, false, false,
                ctx.sentinelSyncTime, ctx.applied ++ [t.lsn]⟩, [], false⟩ := by
            simp [stream_replay_line, stream_apply_sql, sentinel_progress,
              hq, hr, hce, hre]
          have hrB : read_from_stream w
              { ctx with transactionInProgress := true }
              [⟨StreamAction.commit, t.lsn, t.commitTime, true⟩] =
              ⟨true, false, ⟨ctx.endpos, t.lsn, t.lsn, false, false, false,
                ctx.sentinelSyncTime, ctx.applied ++ [t.lsn]⟩, [], []⟩ := by
            simp [read_from_stream, hcl]
          refine ⟨⟨ctx.endpos, t.lsn, t.lsn, false, false, false,
            ctx.sentinelSyncTime, ctx.applied ++ [t.lsn]⟩, [],
            ?_, rfl, rfl, rfl, rfl, rfl, ?_⟩
          · rw [show t.msgs = [⟨StreamAction.begin, t.lsn, t.beginTime, true⟩] ++
                (t.body ++ [⟨StreamAction.commit, t.lsn, t.commitTime, true⟩])
                from rfl, read_from_stream_append w _ _ _, hrA]
            simp [hbc, hrB, hce]
          · simp [hce]

theorem replay_txns_loop (w : ReplayWorld) :
    ∀ (ts : List Txn) (ctx : StreamApplyContext),
      ctx.endpos = w.sentinelEndpos →
      ctx.endpos ≠ 0 →
      ctx.reachedEndPos = false →
      ctx.transactionInProgress = false →
      ctx.previousLSN < ctx.endpos →
      ctx.replay_lsn = ctx.previousLSN →
      sortedLT (ts.map Txn.lsn) = true →
      (∀ t ∈ ts, ctx.previousLSN < t.lsn) →
      (∀ t ∈ ts, ∀ m ∈ t.body, isDML m.action = true ∧ m.parseOk = true) →
      (read_from_stream w ctx (txnStream ts)).ok = true ∧
      (read_from_stream w ctx (txnStream ts)).ctx.applied =
        ctx.applied ++
          (ts.map Txn.lsn).filter (fun c => decide (c ≤ ctx.endpos)) ∧
      (read_from_stream w ctx (txnStream ts)).ctx.previousLSN =
        ((ts.map Txn.lsn).filter (fun c => decide (c ≤ ctx.endpos))).foldl
          max ctx.previousLSN ∧
      (read_from_stream w ctx (txnStream ts)).ctx.replay_lsn =
        (read_from_stream w ctx (txnStream ts)).ctx.previousLSN ∧
      (∀ t ∈ ts, ctx.endpos < t.lsn →
        ∃ m ∈ (read_from_stream w ctx (txnStream ts)).rest,
          m.action = StreamAction.commit ∧ m.lsn = t.lsn) := by
  intro ts
  induction ts with
  | nil =>
    intro ctx _ _ _ _ _ hrepl _ _ _
    simp [txnStream, read_from_stream, hrepl]
  | cons t ts' ih =>
    intro ctx hend hnz hre htip hlt hrepl hsort hall hbodies
    simp only [List.map_cons, sortedLT, Bool.and_eq_true, List.all_eq_true,
      decide_eq_true_eq] at hsort
    obtain ⟨h1, h2⟩ := hsort
    have hgt := hall t (List.mem_cons_self t ts')
    have hstep := txn_step w ctx t hend hnz hre htip hlt hgt
      (hbodies t (List.mem_cons_self t ts'))
    have htxn : txnStream (t :: ts') = t.msgs ++ txnStream ts' := by
      simp [txnStream]
    rcases Nat.lt_or_ge ctx.endpos t.lsn with hgtE | hgeE
    · have heq := hstep.1 hgtE
      have happ := read_from_stream_append w t.msgs (txnStream ts') ctx
      rw [heq] at happ
      simp at happ
      rw [htxn, happ]
      have hfil : List.filter (fun c => decide (c ≤ ctx.endpos))
          (t.lsn :: List.map Txn.lsn ts') = [] := by
        rw [List.filter_eq_nil_iff]
        intro a ha
        rcases List.mem_cons.mp ha with rfl | hmem
        · simp
          omega
        · have := h1 a hmem
          simp
          omega
      refine ⟨rfl, ?_, ?_, hrepl, ?_⟩
      · simp [hfil]
      · simp [hfil]
      · intro t' ht' he'
        rcases List.mem_cons.mp ht' with rfl | hmem
        · refine ⟨⟨StreamAction.commit, t'.lsn, t'.commitTime, true⟩, ?_, rfl, rfl⟩
          simp
        · obtain ⟨m, hm, hma, hml⟩ := commit_in_txnStream ts' t' hmem
          refine ⟨m, ?_, hma, hml⟩
          simp [hm]
    · obtain ⟨C, E, heq, hap, hprev, hrep, hepC, htipC, hreC⟩ := hstep.2 hgeE
      have happ := read_from_stream_append w t.msgs (txnStream ts') ctx
      rw [heq] at happ
      by_cases hce : ctx.endpos ≤ t.lsn
      · simp [hce] at happ
        rw [htxn, happ]
        have hfil2 : List.filter (fun c => decide (c ≤ ctx.endpos))
            (List.map Txn.lsn ts') = [] := by
          rw [List.filter_eq_nil_iff]
          intro a ha
          have := h1 a ha
          simp
          omega
        refine ⟨rfl, ?_, ?_, hrep.trans hprev.symm, ?_⟩
        · simp [hap, hgeE, hfil2]
        · simp [hprev, hgeE, hfil2, Nat.max_eq_right (Nat.le_of_lt hgt)]
        · intro t' ht' he'
          rcases List.mem_cons.mp ht' with rfl | hmem
          · exact absurd he' (Nat.not_lt.mpr hgeE)
          · obtain ⟨m, hm, hma, hml⟩ := commit_in_txnStream ts' t' hmem
            exact ⟨m, by simpa using hm, hma, hml⟩
      · have hclt : t.lsn < ctx.endpos := by omega
        simp [hce] at happ
        rw [htxn, happ]
        have hfc : List.filter (fun c => decide (c ≤ ctx.endpos))
            (t.lsn :: List.map Txn.lsn ts') =
            t.lsn :: List.filter (fun c => decide (c ≤ ctx.endpos))
              (List.map Txn.lsn ts') := by
          simp [hgeE]
        have ihc := ih C (hepC.trans hend) (by rw [hepC]; exact hnz)
          (by rw [hreC]; simp [hce])
          htipC (by rw [hprev, hepC]; exact hclt) (hrep.trans hprev.symm) h2
          (by intro t' ht'; rw [hprev]; exact h1 t'.lsn (List.mem_map_of_mem Txn.lsn ht'))
          (fun t' ht' => hbodies t' (List.mem_cons_of_mem t ht'))
        obtain ⟨ihok, ihap, ihprev, ihrep, ihrest⟩ := ihc
        rw [hepC] at ihap ihprev
        rw [hap] at ihap
        rw [hprev] at ihprev
        refine ⟨by simpa using ihok, ?_, ?_, by simpa using ihrep, ?_⟩
        · simp only [List.map_cons, hfc]
          simp [ihap, List.append_assoc]
        · simp only [List.map_cons, hfc, List.foldl_cons,
            Nat.max_eq_right (Nat.le_of_lt hgt)]
          simpa using ihprev
        · intro t' ht' he'
          rcases List.mem_cons.mp ht' with rfl | hmem
          · exact absurd he' (Nat.not_lt.mpr hgeE)
          · obtain ⟨m, hm, hma, hml⟩ := ihrest t' hmem (by rw [hepC]; exact he')
            exact ⟨m, by simpa using hm, hma, hml⟩

/-- C1: the live-replay applier respects the end position.  First, when a
non-zero endpos is at most the LSN already reached at startup
(`previousLSN`), `stream_apply_replay` returns success immediately,
leaving the context unchanged (nothing applied), performing no sentinel
action, and reading no input.  Second, on a well-formed transformed
stream of transactions with strictly increasing commit LSNs, the run
succeeds, the transactions committed on the target are exactly those
whose commit LSN is at most endpos (in order), the final replayed LSN is
the greatest commit LSN at most endpos (or the starting LSN when there is
none), and the COMMIT line of every transaction beyond endpos is left
unread in the input — the applier stops after committing the transaction
whose commit LSN is the greatest commit LSN at most endpos. -/
theorem stream_apply_replay_respects_endpos :
    (∀ (w : ReplayWorld) (ctx : StreamApplyContext) (msgs : List Msg),
      ctx.endpos ≠ 0 → ctx.endpos ≤ ctx.previousLSN →
      stream_apply_replay w ctx msgs = ⟨true, ctx, [], msgs⟩) ∧
    (∀ (w : ReplayWorld) (ctx : StreamApplyContext) (ts : List Txn),
      w.srcInitOk = true →
      ctx.endpos = w.sentinelEndpos →
      ctx.endpos ≠ 0 →
      ctx.reachedEndPos = false →
      ctx.transactionInProgress = false →
      ctx.previousLSN < ctx.endpos →
      ctx.replay_lsn = ctx.previousLSN →
      sortedLT (ts.map Txn.lsn) = true →
      (∀ t ∈ ts, ctx.previousLSN < t.lsn) →
      (∀ t ∈ ts, ∀ m ∈ t.body, isDML m.action = true ∧ m.parseOk = true) →
      (stream_apply_replay w ctx (txnStream ts)).ok = true ∧
      (stream_apply_replay w ctx (txnStream ts)).ctx.applied =
        ctx.applied ++
          (ts.map Txn.lsn).filter (fun c => decide (c ≤ ctx.endpos)) ∧
      (stream_apply_replay w ctx (txnStream ts)).ctx.replay_lsn =
        ((ts.map Txn.lsn).filter (fun c => decide (c ≤ ctx.endpos))).foldl
          max ctx.previousLSN ∧
      (∀ t ∈ ts, ctx.endpos < t.lsn →
        ∃ m ∈ (stream_apply_replay w ctx (txnStream ts)).rest,
          m.action = StreamAction.commit ∧ m.lsn = t.lsn)) := by
  constructor
  · intro w ctx msgs hnz hle
    simp [stream_apply_replay, hnz, hle]
  · intro w ctx ts hinit hend hnz hre htip hlt hrepl hsort hall hbodies
    obtain ⟨hok, hap, hprev, hrep, hrest⟩ :=
      replay_txns_loop w ts ctx hend hnz hre htip hlt hrepl hsort hall hbodies
    have hne : ¬ (ctx.endpos ≠ 0 ∧ ctx.endpos ≤ ctx.previousLSN) :=
      fun h => absurd h.2 (Nat.not_le.mpr hlt)
    have hTok : (stream_apply_replay w ctx (txnStream ts)).ok = true := by
      by_cases hq :
          (read_from_stream w ctx (txnStream ts)).ctx.sentinelQueryInProgress <;>
        simp [stream_apply_replay, hne, hinit, hok, hq]
    have hTapplied : (stream_apply_replay w ctx (txnStream ts)).ctx.applied =
        (read_from_stream w ctx (txnStream ts)).ctx.applied := by
      by_cases hq :
          (read_from_stream w ctx (txnStream ts)).ctx.sentinelQueryInProgress <;>
        simp [stream_apply_replay, hne, hinit, hok, hq]
    have hTreplay : (stream_apply_replay w ctx (txnStream ts)).ctx.replay_lsn =
        (read_from_stream w ctx (txnStream ts)).ctx.replay_lsn := by
      by_cases hq :
          (read_from_stream w ctx (txnStream ts)).ctx.sentinelQueryInProgress <;>
        simp [stream_apply_replay, hne, hinit, hok, hq]
    have hTrest : (stream_apply_replay w ctx (txnStream ts)).rest =
        (read_from_stream w ctx (txnStream ts)).rest := by
      by_cases hq :
          (read_from_stream w ctx (txnStream ts)).ctx.sentinelQueryInProgress <;>
        simp [stream_apply_replay, hne, hinit, hok, hq]
    refine ⟨hTok, hTapplied.trans hap, hTreplay.trans (hrep.trans hprev), ?_⟩
    intro t' ht' he'
    rw [hTrest]
    exact hrest t' ht' he'

/-- Witness for C1 at concrete inputs: a context whose endpos 5 was
already reached at LSN 10 returns immediately; and with endpos 25 over
transactions at LSNs 10, 20 and 30, exactly 10 and 20 are applied, the
final replayed LSN is 20, and the COMMIT of 30 is unread. -/
theorem stream_apply_replay_respects_endpos_witness :
    (stream_apply_replay exRWorld exCtxReached exBadMsgs =
      ⟨true, exCtxReached, [], exBadMsgs⟩) ∧
    ((stream_apply_replay exRWorld exCtx (txnStream exTxns)).ok = true ∧
     (stream_apply_replay exRWorld exCtx (txnStream exTxns)).ctx.applied =
       exCtx.applied ++
         (exTxns.map Txn.lsn).filter (fun c => decide (c ≤ exCtx.endpos)) ∧
     (stream_apply_replay exRWorld exCtx (txnStream exTxns)).ctx.replay_lsn =
       ((exTxns.map Txn.lsn).filter (fun c => decide (c ≤ exCtx.endpos))).foldl
         max exCtx.previousLSN ∧
     (∀ t ∈ exTxns, exCtx.endpos < t.lsn →
       ∃ m ∈ (stream_apply_replay exRWorld exCtx (txnStream exTxns)).rest,
         m.action = StreamAction.commit ∧ m.lsn = t.lsn)) :=
  ⟨stream_apply_replay_respects_endpos.1 exRWorld exCtxReached exBadMsgs
     (by decide) (by decide),
   stream_apply_replay_respects_endpos.2 exRWorld exCtx exTxns
     (by rfl) (by rfl) (by decide) (by rfl) (by rfl) (by decide) (by rfl)
     (by decide) (by decide) (by decide)⟩

end Pgcopydb
